import Mathlib

/-!
Verification of the YouTube graph crawler (`src/python/videoscraper/crawler.py`)
against its natural-language specification.

The development shallowly embeds the parts of `crawler.py` that the claims
touch:

* `extract_video_id` (URL → video id) as a literal translation of the
  three regex searches, over `List Char`;
* `_extract_video_ids_from_data` / `_get_related_from_page` over a JSON
  value type (the HTTP fetch and JSON text parse are abstracted: the
  function is given the parsed `ytInitialData` value, if any, and the
  ordered list of regex-scan hits for method 2);
* `VideoNode.to_dict` / `VideoNode.from_dict`, `_save_checkpoint` /
  `_load_checkpoint` (JSON text encode/decode of the checkpoint document
  is abstracted as identity on the document structure);
* the concurrent worker loop of `YouTubeCrawler._worker` together with
  `_add_related_to_frontier`, as a small-step transition system whose
  atomic steps are exactly the lock-protected regions of the code, with
  an arbitrary number of interleaved workers.

Machine integers do not matter here (Python integers are unbounded); all
counters and depths in the embedded crawl are natural numbers.
-/

/-! ## Data model: `VideoNode` (crawler.py, `@dataclass VideoNode`)

Field for field the dataclass, with Python `Optional` as `Option` and the
`discovered_at` timestamp as an opaque string. -/

structure VideoNode where
  video_id : String
  url : String
  title : Option String := none
  channel : Option String := none
  duration : Option Nat := none
  view_count : Option Nat := none
  related_ids : List String := []
  discovered_at : String := ""
  depth : Nat := 0
  parent_id : Option String := none
deriving DecidableEq, Repr

/-! ## `YouTubeGraphExtractor.extract_video_id` (crawler.py:130-142)

The Python function runs `re.search` with three patterns in order:
  1. `(?:v=|/v/|youtu\.be/)([a-zA-Z0-9_-]{11})`
  2. `(?:embed/)([a-zA-Z0-9_-]{11})`
  3. `(?:shorts/)([a-zA-Z0-9_-]{11})`
returning the group of the first pattern that matches, else `None`.

`re.search` semantics for these patterns: scan start positions left to
right; at a position try the alternatives of the non-capturing group in
order; an alternative matches when its literal is a prefix of the
remaining input followed by exactly 11 characters of `[a-zA-Z0-9_-]`. -/

def idChar (c : Char) : Bool :=
  c.isAlpha || c.isDigit || c == '_' || c == '-'

/-- The `([a-zA-Z0-9_-]{11})` capture group: consume exactly 11 id
characters from the front of the remaining input. -/
def grabId (cs : List Char) : Option (List Char) :=
  let v := cs.take 11
  if (v.length == 11 && v.all idChar) = true then some v else none

/-- Try one literal alternative at the current position: match the
literal character by character, then the 11-character capture group. -/
def tryLit (lit : List Char) (cs : List Char) : Option (List Char) :=
  match lit, cs with
  | [], rest => grabId rest
  | _ :: _, [] => none
  | a :: as, c :: rest => if a == c then tryLit as rest else none

/-- Try the alternatives of one pattern, in order, at the current position. -/
def tryAltsAt (alts : List (List Char)) (cs : List Char) : Option (List Char) :=
  match alts with
  | [] => none
  | a :: rest =>
    match tryLit a cs with
    | some r => some r
    | none => tryAltsAt rest cs

/-- `re.search` for one pattern: leftmost start position wins. -/
def reSearch (alts : List (List Char)) : List Char → Option (List Char)
  | [] => tryAltsAt alts []
  | c :: cs =>
    match tryAltsAt alts (c :: cs) with
    | some r => some r
    | none => reSearch alts cs

def pat1Alts : List (List Char) := [['v', '='], ['/', 'v', '/'], "youtu.be/".data]

def pat2Alts : List (List Char) := ["embed/".data]

def pat3Alts : List (List Char) := ["shorts/".data]

/-- `YouTubeGraphExtractor.extract_video_id`: the three `re.search` calls
in source order, first hit wins. -/
def extract_video_id (url : String) : Option String :=
  match reSearch pat1Alts url.data with
  | some r => some (String.mk r)
  | none =>
    match reSearch pat2Alts url.data with
    | some r => some (String.mk r)
    | none =>
      match reSearch pat3Alts url.data with
      | some r => some (String.mk r)
      | none => none

/-- The canonical watch URL built from an id,
`f"https://www.youtube.com/watch?v={video_id}"` (crawler.py:146). -/
def canonical_url (id : String) : String :=
  "https://www.youtube.com/watch?v=" ++ id

/-- All five literal shapes accepted by the three patterns. -/
def allShapeLits : List (List Char) := pat1Alts ++ pat2Alts ++ pat3Alts

/-- Position-quantified form of "the URL matches one of the accepted URL
shapes": at some start position, some shape literal occurs followed by
exactly 11 id characters. -/
def acceptedShape (cs : List Char) : Bool :=
  (List.range cs.length).any fun n =>
    allShapeLits.any fun lit => (tryLit lit (cs.drop n)).isSome

/-- The characters of the canonical watch URL base
`"https://www.youtube.com/watch?v="`. -/
def watchBase : List Char :=
  ['h','t','t','p','s',':','/','/','w','w','w','.','y','o','u','t','u','b','e','.','c','o','m','/','w','a','t','c','h','?','v','=']

lemma grabId_of_len11 (cs : List Char) (hlen : cs.length = 11) (hchars : cs.all idChar = true) :
    grabId cs = some cs := by
  have htake : cs.take 11 = cs := by
    rw [← hlen]
    exact cs.take_length
  simp only [grabId, htake, hlen, hchars]
  simp

/-- Searching pattern 1 in `watchBase ++ id` finds the id: positions before
the `v=` at index 30 all fail on concrete characters, and at index 30 the
`v=` alternative matches and captures the 11 id characters. -/
lemma reSearch_watch (cs : List Char) (hlen : cs.length = 11) (hchars : cs.all idChar = true) :
    reSearch pat1Alts (watchBase ++ cs) = some cs := by
  have hgrab : grabId cs = some cs := grabId_of_len11 cs hlen hchars
  have hmid : reSearch pat1Alts (watchBase ++ cs) = reSearch pat1Alts ('v' :: '=' :: cs) := rfl
  have h1 : tryLit ['v', '='] ('v' :: '=' :: cs) = grabId cs := rfl
  have h2 : tryLit ['v', '='] ('v' :: '=' :: cs) = some cs := h1.trans hgrab
  have htry : tryAltsAt pat1Alts ('v' :: '=' :: cs) = some cs := by
    simp only [pat1Alts, tryAltsAt]
    rw [h2]
  rw [hmid, reSearch, htry]

lemma tryLit_nil_of_ne (lit : List Char) (h : lit ≠ []) : tryLit lit [] = none := by
  cases lit with
  | nil => exact absurd rfl h
  | cons a as => rfl

lemma tryAltsAt_eq_none (alts : List (List Char)) (cs : List Char)
    (h : ∀ lit ∈ alts, tryLit lit cs = none) : tryAltsAt alts cs = none := by
  induction alts with
  | nil => rfl
  | cons a rest ih =>
    rw [tryAltsAt, h a (by simp)]
    exact ih fun lit hl => h lit (by simp [hl])

lemma reSearch_eq_none (alts : List (List Char)) (cs : List Char)
    (h : ∀ n, ∀ lit ∈ alts, tryLit lit (cs.drop n) = none) : reSearch alts cs = none := by
  induction cs with
  | nil =>
    rw [reSearch]
    exact tryAltsAt_eq_none alts [] fun lit hl => by simpa using h 0 lit hl
  | cons c cs ih =>
    rw [reSearch, tryAltsAt_eq_none alts (c :: cs) fun lit hl => by simpa using h 0 lit hl]
    exact ih fun n lit hl => by simpa using h (n + 1) lit hl

lemma reSearch_none_of_unaccepted (cs : List Char) (h : acceptedShape cs = false)
    (alts : List (List Char)) (hsub : ∀ lit ∈ alts, lit ∈ allShapeLits) :
    reSearch alts cs = none := by
  have hne : ∀ lit ∈ allShapeLits, lit ≠ [] := by decide
  apply reSearch_eq_none
  intro n lit hl
  by_cases hn : n < cs.length
  · simp only [acceptedShape, List.any_eq_false] at h
    cases htl : tryLit lit (cs.drop n) with
    | none => rfl
    | some r =>
      exfalso
      apply h n (List.mem_range.mpr hn)
      exact List.any_eq_true.mpr ⟨lit, hsub lit hl, by rw [htl]; rfl⟩
  · have hdrop : cs.drop n = [] := by
      apply List.drop_eq_nil_of_le
      omega
    rw [hdrop]
    exact tryLit_nil_of_ne lit (hne lit (hsub lit hl))

/-- C6: for every 11-character id over `[A-Za-z0-9_-]`,
`extract_video_id` applied to the canonical watch URL built from the id
returns the id (round-trip law); and `extract_video_id` returns `None`
when the URL matches none of the accepted shapes (no position of the URL
carries one of the five shape literals followed by 11 id characters). -/
theorem claim_C6_extract_video_id :
    (∀ id : String, id.data.length = 11 → id.data.all idChar = true →
      extract_video_id (canonical_url id) = some id) ∧
    (∀ url : String, acceptedShape url.data = false → extract_video_id url = none) := by
  constructor
  · intro id hlen hchars
    obtain ⟨cs⟩ := id
    have hdata : (canonical_url (String.mk cs)).data = watchBase ++ cs := rfl
    unfold extract_video_id
    rw [hdata, reSearch_watch cs hlen hchars]
  · intro url hna
    unfold extract_video_id
    rw [reSearch_none_of_unaccepted url.data hna pat1Alts (by decide),
      reSearch_none_of_unaccepted url.data hna pat2Alts (by decide),
      reSearch_none_of_unaccepted url.data hna pat3Alts (by decide)]

/-- C6 witness: both parts of the theorem applied at concrete inputs. -/
theorem claim_C6_extract_video_id_witness :
    extract_video_id (canonical_url "dQw4w9WgXcQ") = some "dQw4w9WgXcQ" ∧
    extract_video_id "https://example.com/page" = none :=
  ⟨claim_C6_extract_video_id.1 "dQw4w9WgXcQ" (by decide) (by decide),
   claim_C6_extract_video_id.2 "https://example.com/page" (by decide)⟩

/-! ## JSON values

`_extract_video_ids_from_data` walks the parsed `ytInitialData` JSON.
JSON values are embedded as a mutual inductive (objects keep document
order, as Python dicts loaded from JSON do). -/

mutual

inductive JVal where
  | jnull : JVal
  | jbool : Bool → JVal
  | jnum : Int → JVal
  | jstr : String → JVal
  | jarr : JArr → JVal
  | jobj : JObj → JVal

inductive JArr where
  | nil : JArr
  | cons : JVal → JArr → JArr

inductive JObj where
  | nil : JObj
  | cons : String → JVal → JObj → JObj

end

/-- `key in obj` / `obj[key]` (JSON-loaded Python dicts have unique keys;
first occurrence is taken). -/
def JObj.lookupKey : JObj → String → Option JVal
  | .nil, _ => none
  | .cons k v rest, key => if k = key then some v else JObj.lookupKey rest key

/-! ## `YouTubeGraphExtractor._extract_video_ids_from_data` (crawler.py:230-268) -/

/-- `isinstance(vid, str) and len(vid) == 11` guarding an append. -/
def idHit (v : JVal) : List String :=
  match v with
  | .jstr s => if s.length == 11 then [s] else []
  | _ => []

/-- The two direct checks `extract_recursive` performs on a dict before
recursing into its values: the `videoId` field, then a `videoId` inside a
`watchEndpoint` dict. -/
def objHits (fs : JObj) : List String :=
  (match fs.lookupKey "videoId" with
   | some v => idHit v
   | none => []) ++
  (match fs.lookupKey "watchEndpoint" with
   | some (.jobj efs) =>
     (match efs.lookupKey "videoId" with
      | some v => idHit v
      | none => [])
   | _ => [])

mutual

/-- `extract_recursive`: on a dict, record the direct hits and then
recurse into the values in document order; on a list, recurse in order;
all other values contribute nothing. -/
def extractJVal : JVal → List String
  | .jobj fs => objHits fs ++ extractJObj fs
  | .jarr xs => extractJArr xs
  | _ => []

def extractJArr : JArr → List String
  | .nil => []
  | .cons v rest => extractJVal v ++ extractJArr rest

def extractJObj : JObj → List String
  | .nil => []
  | .cons _ v rest => extractJVal v ++ extractJObj rest

end

/-- The seen-set deduplication loop at the end of
`_extract_video_ids_from_data` (keeps first occurrences, in order). -/
def dedupAux : List String → List String → List String
  | [], _ => []
  | v :: rest, seen =>
    if v ∈ seen then dedupAux rest seen else v :: dedupAux rest (v :: seen)

def dedupFirst (l : List String) : List String := dedupAux l []

def extract_video_ids_from_data (d : JVal) : List String :=
  dedupFirst (extractJVal d)

/-! ## `YouTubeGraphExtractor._get_related_from_page` (crawler.py:185-228)

The HTTP fetch and the `ytInitialData` regex/JSON-parse are abstracted:
the function receives the parsed `ytInitialData` value when method 1
found one (`none` covers no match, a JSON decode error, and a failed
request) and the ordered `re.findall` hits of method 2's page scan.
Python's `set` iteration order is not defined; it is modelled as
first-occurrence order, which no theorem below depends on. -/

def pageDataIds (initialData : Option JVal) : List String :=
  match initialData with
  | some d => extract_video_ids_from_data d
  | none => []

def get_related_from_page (video_id : String) (initialData : Option JVal)
    (scanIds : List String) : List String :=
  let fromData := pageDataIds initialData
  let related :=
    if fromData.isEmpty then
      (dedupFirst scanIds).filter (fun s => s ≠ video_id)
    else fromData
  related.take 25

/-- C5 counterexample: on the structured-data path the self-ID is NOT
excluded. A `ytInitialData` value whose `videoId` field holds the page's
own video id makes `_get_related_from_page` return a list containing that
id (the `all_ids.discard(video_id)` at crawler.py:222 runs only on the
regex fallback path). -/
theorem claim_C5_cex :
    "AAAAAAAAAAA" ∈ get_related_from_page "AAAAAAAAAAA"
      (some (.jobj (.cons "videoId" (.jstr "AAAAAAAAAAA") .nil))) [] := by
  have h : get_related_from_page "AAAAAAAAAAA"
      (some (.jobj (.cons "videoId" (.jstr "AAAAAAAAAAA") .nil))) []
      = ["AAAAAAAAAAA"] := rfl
  rw [h]
  exact List.mem_singleton.mpr rfl

/-- C5 (amended): the returned list always has at most 25 entries, and on
the regex fallback path (taken exactly when the structured-data extraction
yields nothing) the self-ID is excluded. On the structured-data path the
self-ID may appear (see the counterexample). -/
theorem claim_C5_related_ids (video_id : String) (initialData : Option JVal)
    (scanIds : List String) :
    (get_related_from_page video_id initialData scanIds).length ≤ 25 ∧
    (pageDataIds initialData = [] →
      video_id ∉ get_related_from_page video_id initialData scanIds) := by
  constructor
  · simp only [get_related_from_page, List.length_take]
    exact Nat.min_le_left _ _
  · intro h hmem
    simp only [get_related_from_page, h, List.isEmpty_nil, if_true] at hmem
    have hsub := List.take_subset 25 _ hmem
    simp [List.mem_filter] at hsub

/-- C5 witness: the amended theorem at a concrete fallback-path input. -/
theorem claim_C5_related_ids_witness :
    (get_related_from_page "AAAAAAAAAAA" none ["BBBBBBBBBBB", "AAAAAAAAAAA"]).length ≤ 25 ∧
    "AAAAAAAAAAA" ∉ get_related_from_page "AAAAAAAAAAA" none ["BBBBBBBBBBB", "AAAAAAAAAAA"] :=
  ⟨(claim_C5_related_ids "AAAAAAAAAAA" none ["BBBBBBBBBBB", "AAAAAAAAAAA"]).1,
   (claim_C5_related_ids "AAAAAAAAAAA" none ["BBBBBBBBBBB", "AAAAAAAAAAA"]).2 rfl⟩

/-! ## `VideoNode.to_dict` / `VideoNode.from_dict` (crawler.py:51-67)

`to_dict` builds a dict with all ten fields (Python `None` becomes JSON
null); `from_dict` is `cls(**data)`, which raises exactly when `data` has
a key that is not a dataclass field or lacks a required field
(`video_id`, `url`). The dataclass performs no runtime type validation;
the decoders below additionally require each present value to have the
declared type (all inputs used by theorems in this file are well-typed,
so both semantics agree on them). An absent `discovered_at` defaults to a
fresh wall-clock timestamp in Python; it is modelled as the empty string
(no theorem exercises that default). -/

def optStrJ : Option String → JVal
  | none => .jnull
  | some s => .jstr s

def optNatJ : Option Nat → JVal
  | none => .jnull
  | some n => .jnum n

def strListJ : List String → JArr
  | [] => .nil
  | s :: rest => .cons (.jstr s) (strListJ rest)

def to_dict (v : VideoNode) : JObj :=
  .cons "video_id" (.jstr v.video_id)
    (.cons "url" (.jstr v.url)
      (.cons "title" (optStrJ v.title)
        (.cons "channel" (optStrJ v.channel)
          (.cons "duration" (optNatJ v.duration)
            (.cons "view_count" (optNatJ v.view_count)
              (.cons "related_ids" (.jarr (strListJ v.related_ids))
                (.cons "discovered_at" (.jstr v.discovered_at)
                  (.cons "depth" (.jnum v.depth)
                    (.cons "parent_id" (optStrJ v.parent_id) .nil)))))))))

def JObj.keys : JObj → List String
  | .nil => []
  | .cons k _ rest => k :: JObj.keys rest

/-- The ten `VideoNode` dataclass field names. -/
def nodeFields : List String :=
  ["video_id", "url", "title", "channel", "duration", "view_count",
   "related_ids", "discovered_at", "depth", "parent_id"]

def decStr : Option JVal → Option String
  | some (.jstr s) => some s
  | _ => none

def decOptStr : Option JVal → Option (Option String)
  | none => some none
  | some .jnull => some none
  | some (.jstr s) => some (some s)
  | some _ => none

def decOptNat : Option JVal → Option (Option Nat)
  | none => some none
  | some .jnull => some none
  | some (.jnum n) => if 0 ≤ n then some (some n.toNat) else none
  | some _ => none

def decStrList : JArr → Option (List String)
  | .nil => some []
  | .cons (.jstr s) rest => (decStrList rest).map (s :: ·)
  | .cons _ _ => none

def decRelated : Option JVal → Option (List String)
  | none => some []
  | some (.jarr xs) => decStrList xs
  | some _ => none

def decDiscoveredAt : Option JVal → Option String
  | none => some ""
  | some (.jstr s) => some s
  | some _ => none

def decDepth : Option JVal → Option Nat
  | none => some 0
  | some (.jnum n) => if 0 ≤ n then some n.toNat else none
  | some _ => none

/-- `VideoNode.from_dict(data)` = `cls(**data)`: succeeds iff every key is
a dataclass field and the required `video_id` / `url` are present; absent
optional fields take their dataclass defaults. -/
def from_dict (fs : JObj) : Option VideoNode :=
  if (fs.keys.all fun k => decide (k ∈ nodeFields)) = true then
    match decStr (fs.lookupKey "video_id"), decStr (fs.lookupKey "url") with
    | some vid, some url =>
      match decOptStr (fs.lookupKey "title"), decOptStr (fs.lookupKey "channel"),
            decOptNat (fs.lookupKey "duration"), decOptNat (fs.lookupKey "view_count"),
            decRelated (fs.lookupKey "related_ids"),
            decDiscoveredAt (fs.lookupKey "discovered_at"),
            decDepth (fs.lookupKey "depth"), decOptStr (fs.lookupKey "parent_id") with
      | some title, some channel, some dur, some vc, some rel, some da, some dep, some pid =>
        some { video_id := vid, url := url, title := title, channel := channel,
               duration := dur, view_count := vc, related_ids := rel,
               discovered_at := da, depth := dep, parent_id := pid }
      | _, _, _, _, _, _, _, _ => none
    | _, _ => none
  else none

lemma decStrList_strListJ (l : List String) : decStrList (strListJ l) = some l := by
  induction l with
  | nil => rfl
  | cons s rest ih => simp [strListJ, decStrList, ih]

lemma decOptStr_optStrJ (o : Option String) : decOptStr (some (optStrJ o)) = some o := by
  cases o <;> rfl

lemma decOptNat_optNatJ (o : Option Nat) : decOptNat (some (optNatJ o)) = some o := by
  cases o with
  | none => rfl
  | some n => simp [optNatJ, decOptNat]

lemma from_dict_to_dict (v : VideoNode) : from_dict (to_dict v) = some v := by
  obtain ⟨vid, url, title, channel, dur, vc, rel, da, dep, pid⟩ := v
  simp [from_dict, to_dict, JObj.keys, JObj.lookupKey, nodeFields, decStr,
    decOptStr_optStrJ, decOptNat_optNatJ, decRelated, decStrList_strListJ,
    decDiscoveredAt, decDepth]

/-! ## Crawler store state and the checkpoint document

The crawler state that checkpoints cover: `_visited`, `_discovered`, and
the five serialized counters of `_stats` (crawler.py:354-362, 656-707).
`_visited` is a Python set serialized via `list(...)`; it is modelled by
its element list. -/

structure StatsCounters where
  videos_discovered : Nat := 0
  videos_processed : Nat := 0
  videos_downloaded : Nat := 0
  bytes_downloaded : Nat := 0
  errors : Nat := 0
deriving DecidableEq, Repr

structure StoreState where
  visited : List String
  discovered : List (String × VideoNode)
  stats : StatsCounters
deriving DecidableEq, Repr

/-- The state the crawler constructor builds before any checkpoint load. -/
def freshStore : StoreState := { visited := [], discovered := [], stats := {} }

/-- The checkpoint document as read back by `_load_checkpoint`: each
top-level key may be absent (`checkpoint.get(key, default)`); vertex
records are raw JSON objects until `VideoNode.from_dict` parses them.
The `timestamp` field is never read and is not modelled. -/
structure CheckpointDoc where
  visited : Option (List String)
  discovered : Option (List (String × JObj))
  stats : Option (List (String × Int))

/-- The document `_save_checkpoint` serializes (crawler.py:661-672):
all keys present, vertex records via `to_dict`, the five counters. -/
def checkpoint_doc (s : StoreState) : CheckpointDoc :=
  { visited := some s.visited,
    discovered := some (s.discovered.map fun kv => (kv.1, to_dict kv.2)),
    stats := some
      [("videos_discovered", (s.stats.videos_discovered : Int)),
       ("videos_processed", (s.stats.videos_processed : Int)),
       ("videos_downloaded", (s.stats.videos_downloaded : Int)),
       ("bytes_downloaded", (s.stats.bytes_downloaded : Int)),
       ("errors", (s.stats.errors : Int))] }

/-! ## `_save_checkpoint` as a file-system trace (crawler.py:656-677)

The body is a single `with open(self.checkpoint_file, "w") as f:
json.dump(checkpoint, f)` — one direct write of the serialized document
to the checkpoint path. File-system effects are modelled as a trace of
operations so that the write-to-temp-then-rename discipline is statable. -/

inductive FsOp where
  | write : String → CheckpointDoc → FsOp
  | rename : String → String → FsOp

def save_checkpoint_ops (checkpoint_file : String) (s : StoreState) : List FsOp :=
  [FsOp.write checkpoint_file (checkpoint_doc s)]

/-- The discipline the spec describes: serialize to a distinct temporary
path, then rename that path onto the checkpoint path. -/
def AtomicWritePattern (path : String) (ops : List FsOp) : Prop :=
  ∃ tmp doc, tmp ≠ path ∧ ops = [FsOp.write tmp doc, FsOp.rename tmp path]

/-! ## `_load_checkpoint` (crawler.py:679-707)

The whole body sits in one `try`, and the three assignments happen in
order: `self._visited = ...`, then `self._discovered = {... from_dict ...}`,
then the five stats fields. An exception keeps every assignment already
executed. `file = none` models `open`/`json.load` raising (nothing was
assigned); a vertex record that `from_dict` rejects raises after
`_visited` was assigned but before `_discovered`/stats were. A missing
`stats` key is no error: each counter falls back to `stats.get(name, 0)`.
Counter values in checkpoints written by `_save_checkpoint` are
non-negative; the `Int.toNat` coercion is exact on them. -/

def decode_discovered : List (String × JObj) → Option (List (String × VideoNode))
  | [] => some []
  | (k, fs) :: rest =>
    match from_dict fs with
    | none => none
    | some v => (decode_discovered rest).map ((k, v) :: ·)

def lookupStat : List (String × Int) → String → Int
  | [], _ => 0
  | (k, n) :: rest, key => if k = key then n else lookupStat rest key

def load_checkpoint (init : StoreState) (file : Option CheckpointDoc) : StoreState :=
  match file with
  | none => init
  | some doc =>
    let s1 : StoreState := { init with visited := doc.visited.getD [] }
    match decode_discovered (doc.discovered.getD []) with
    | none => s1
    | some disc =>
      let s2 := { s1 with discovered := disc }
      let st := doc.stats.getD []
      { s2 with stats :=
        { videos_discovered := (lookupStat st "videos_discovered").toNat,
          videos_processed := (lookupStat st "videos_processed").toNat,
          videos_downloaded := (lookupStat st "videos_downloaded").toNat,
          bytes_downloaded := (lookupStat st "bytes_downloaded").toNat,
          errors := (lookupStat st "errors").toNat } }

lemma decode_discovered_map_to_dict (d : List (String × VideoNode)) :
    decode_discovered (d.map fun kv => (kv.1, to_dict kv.2)) = some d := by
  induction d with
  | nil => rfl
  | cons kv rest ih =>
    obtain ⟨k, v⟩ := kv
    simp [decode_discovered, from_dict_to_dict, ih]

/-- C3 counterexample: `_save_checkpoint` at a concrete path produces a
single direct write to the checkpoint path — not the write-to-temp plus
rename trace the claim requires, so an observer of a crash mid-write can
see a partially written checkpoint file. -/
theorem claim_C3_cex :
    ¬ AtomicWritePattern "checkpoint.json" (save_checkpoint_ops "checkpoint.json" freshStore) := by
  rintro ⟨tmp, doc, hne, heq⟩
  simp [save_checkpoint_ops] at heq

/-- C3 (amended): saving a checkpoint is NOT write-to-temp-then-rename;
it performs exactly one file operation, a direct write of the fully
serialized document to the checkpoint path, and in particular never
satisfies the atomic write pattern. -/
theorem claim_C3_save_not_atomic (path : String) (s : StoreState) :
    save_checkpoint_ops path s = [FsOp.write path (checkpoint_doc s)] ∧
    ¬ AtomicWritePattern path (save_checkpoint_ops path s) := by
  refine ⟨rfl, ?_⟩
  rintro ⟨tmp, doc, hne, heq⟩
  simp [save_checkpoint_ops] at heq

/-- C7: checkpoint round-trip — restoring from the document serialized by
a checkpoint save yields the store back exactly: same visited set, vertex
records equal field for field, same five counters. (JSON text encoding
and decoding of the document is abstracted as identity; `set`→`list`→`set`
on `visited` is modelled on the element list.) -/
theorem claim_C7_checkpoint_roundtrip (s init : StoreState) :
    load_checkpoint init (some (checkpoint_doc s)) = s := by
  obtain ⟨visited, discovered, stats⟩ := s
  obtain ⟨d1, d2, d3, d4, d5⟩ := stats
  simp [load_checkpoint, checkpoint_doc, decode_discovered_map_to_dict, lookupStat]

/-- C8 counterexample: a checkpoint whose `visited` list parses but whose
single vertex record `from_dict` rejects (its only key is not a dataclass
field). `_load_checkpoint` catches the error, yet the crawl does not begin
with empty state: `self._visited` keeps the value assigned before the
failure, differing from the fresh state. -/
theorem claim_C8_cex :
    decode_discovered [("k", JObj.cons "bogus" .jnull .nil)] = none ∧
    (load_checkpoint freshStore (some
      { visited := some ["x"],
        discovered := some [("k", JObj.cons "bogus" .jnull .nil)],
        stats := none })).visited = ["x"] ∧
    freshStore.visited = [] := by
  refine ⟨rfl, ?_, rfl⟩
  rfl

/-- C8 (amended): if `open`/`json.load` itself fails, nothing is assigned
and the crawl starts from the state it had (fresh at construction); but a
failure while parsing a vertex record leaves the checkpoint's `visited`
already assigned, with `discovered` and the stats counters keeping their
prior values — not an entirely empty state. -/
theorem claim_C8_load_failure (init : StoreState) :
    load_checkpoint init none = init ∧
    (∀ doc : CheckpointDoc, decode_discovered (doc.discovered.getD []) = none →
      load_checkpoint init (some doc) = { init with visited := doc.visited.getD [] }) := by
  refine ⟨rfl, fun doc h => ?_⟩
  simp [load_checkpoint, h]

/-- C8 witness: the amended theorem at a concrete failing document. -/
theorem claim_C8_load_failure_witness :
    load_checkpoint freshStore none = freshStore ∧
    load_checkpoint freshStore (some
      { visited := some ["x"],
        discovered := some [("k", JObj.cons "bogus" .jnull .nil)],
        stats := none })
      = { freshStore with visited := ["x"] } :=
  ⟨(claim_C8_load_failure freshStore).1,
   (claim_C8_load_failure freshStore).2
     { visited := some ["x"],
       discovered := some [("k", JObj.cons "bogus" .jnull .nil)],
       stats := none } rfl⟩

/-! ## The concurrent crawl engine (`YouTubeCrawler._worker`, crawler.py:437-536)

Work items are the `(video_id, depth, parent_id)` triples on the frontier
(crawler.py:375, 451, 536). -/

structure WorkItem where
  vid : String
  depth : Nat
  parent : Option String
deriving DecidableEq, Repr

/-- The start of `run()` (crawler.py:567-580): with an empty frontier the
current stats are returned as-is; otherwise `self._stats = CrawlStats()`
replaces the counters before any worker is spawned. -/
def run_start_stats (frontier : List WorkItem) (stats : StatsCounters) : StatsCounters :=
  if frontier.isEmpty then stats else {}

/-- C10: calling `run()` with a non-empty frontier resets every stats
counter to zero before spawning workers; in particular counters restored
by `_load_checkpoint` at construction time are discarded, whatever they
were. -/
theorem claim_C10_run_resets_stats (frontier : List WorkItem) (stats : StatsCounters)
    (h : frontier ≠ []) :
    run_start_stats frontier stats =
      { videos_discovered := 0, videos_processed := 0, videos_downloaded := 0,
        bytes_downloaded := 0, errors := 0 } := by
  simp [run_start_stats, h]

/-- C10 witness: checkpoint-loaded counters are discarded at a concrete
input. -/
theorem claim_C10_run_resets_stats_witness :
    run_start_stats [⟨"a", 0, none⟩]
      (load_checkpoint freshStore (some (checkpoint_doc
        { visited := ["a"], discovered := [],
          stats := { videos_discovered := 7, videos_processed := 7,
                     videos_downloaded := 1, bytes_downloaded := 9,
                     errors := 2 } }))).stats =
      { videos_discovered := 0, videos_processed := 0, videos_downloaded := 0,
        bytes_downloaded := 0, errors := 0 } :=
  claim_C10_run_resets_stats [⟨"a", 0, none⟩] _ (by simp)

/-- The control point a worker thread is at inside its loop, together
with the loop-local data it holds. Each constructor marks the boundary
between two consecutive atomic regions of `_worker`:

* `ready` — top of the `while` loop;
* `passedCheck` — the lock-protected limit check at crawler.py:445-447
  saw `len(discovered) < max_videos`;
* `popped it` — `frontier.get` returned `it` (crawler.py:451);
* `claimed it` — the lock-protected block at crawler.py:461-466 found
  `it.vid` unvisited and `it.depth ≤ max_depth` and added it to visited;
* `fetched it node` — `get_video_info` returned `node` (crawler.py:473);
* `enqueuing node pending` — the lock-protected record at
  crawler.py:479-482 ran; `pending` is the tail of related ids the
  scheduler still has to push (crawler.py:519-536);
* `stopped` — the worker left its loop. -/
inductive WPhase where
  | ready : WPhase
  | passedCheck : WPhase
  | popped : WorkItem → WPhase
  | claimed : WorkItem → WPhase
  | fetched : WorkItem → VideoNode → WPhase
  | enqueuing : VideoNode → List String → WPhase
  | stopped : WPhase
deriving DecidableEq, Repr

/-- Shared crawl state plus the control points of all workers. The
frontier is the FIFO `Queue` (head = next `get`, push appends);
`discovered` is the insertion-ordered dict as an association list with
the most recent insertion first. -/
structure CrawlState where
  frontier : List WorkItem
  visited : List String
  discovered : List (String × VideoNode)
  workers : List WPhase
deriving DecidableEq, Repr

structure CrawlConfig where
  max_videos : Nat
  max_depth : Nat
deriving DecidableEq, Repr

/-- The node actually recorded: `node.depth = depth; node.parent_id =
parent_id` (crawler.py:476-477) before `discovered[video_id] = node`. -/
def recordedNode (node : VideoNode) (it : WorkItem) : VideoNode :=
  { node with depth := it.depth, parent_id := it.parent }

/-- One atomic step of one worker, for any interleaving of any number of
workers. The stepping worker is the one between `l₁` and `l₂`. The
expander's network answer is unconstrained except that `get_video_info`
always builds its node with `video_id=video_id` (crawler.py:175-183); the
scheduler's random choice is any selection from `related_ids`
(crawler.py:524-531). -/
inductive Step (cfg : CrawlConfig) : CrawlState → CrawlState → Prop where
  | checkPass (s : CrawlState) (l₁ l₂ : List WPhase) :
      s.workers = l₁ ++ WPhase.ready :: l₂ →
      s.discovered.length < cfg.max_videos →
      Step cfg s { s with workers := l₁ ++ WPhase.passedCheck :: l₂ }
  | checkStop (s : CrawlState) (l₁ l₂ : List WPhase) :
      s.workers = l₁ ++ WPhase.ready :: l₂ →
      cfg.max_videos ≤ s.discovered.length →
      Step cfg s { s with workers := l₁ ++ WPhase.stopped :: l₂ }
  | stopSignal (s : CrawlState) (l₁ l₂ : List WPhase) :
      s.workers = l₁ ++ WPhase.ready :: l₂ →
      Step cfg s { s with workers := l₁ ++ WPhase.stopped :: l₂ }
  | pop (s : CrawlState) (l₁ l₂ : List WPhase) (it : WorkItem) (rest : List WorkItem) :
      s.workers = l₁ ++ WPhase.passedCheck :: l₂ →
      s.frontier = it :: rest →
      Step cfg s { s with frontier := rest, workers := l₁ ++ WPhase.popped it :: l₂ }
  | popEmpty (s : CrawlState) (l₁ l₂ : List WPhase) :
      s.workers = l₁ ++ WPhase.passedCheck :: l₂ →
      s.frontier = [] →
      Step cfg s { s with workers := l₁ ++ WPhase.stopped :: l₂ }
  | skipVisited (s : CrawlState) (l₁ l₂ : List WPhase) (it : WorkItem) :
      s.workers = l₁ ++ WPhase.popped it :: l₂ →
      it.vid ∈ s.visited →
      Step cfg s { s with workers := l₁ ++ WPhase.ready :: l₂ }
  | skipDeep (s : CrawlState) (l₁ l₂ : List WPhase) (it : WorkItem) :
      s.workers = l₁ ++ WPhase.popped it :: l₂ →
      it.vid ∉ s.visited →
      cfg.max_depth < it.depth →
      Step cfg s { s with workers := l₁ ++ WPhase.ready :: l₂ }
  | claim (s : CrawlState) (l₁ l₂ : List WPhase) (it : WorkItem) :
      s.workers = l₁ ++ WPhase.popped it :: l₂ →
      it.vid ∉ s.visited →
      it.depth ≤ cfg.max_depth →
      Step cfg s { s with visited := it.vid :: s.visited,
                          workers := l₁ ++ WPhase.claimed it :: l₂ }
  | fetchOk (s : CrawlState) (l₁ l₂ : List WPhase) (it : WorkItem) (node : VideoNode) :
      s.workers = l₁ ++ WPhase.claimed it :: l₂ →
      node.video_id = it.vid →
      Step cfg s { s with workers := l₁ ++ WPhase.fetched it node :: l₂ }
  | fetchFail (s : CrawlState) (l₁ l₂ : List WPhase) (it : WorkItem) :
      s.workers = l₁ ++ WPhase.claimed it :: l₂ →
      Step cfg s { s with workers := l₁ ++ WPhase.ready :: l₂ }
  | record (s : CrawlState) (l₁ l₂ : List WPhase) (it : WorkItem) (node : VideoNode)
      (pending : List String) :
      s.workers = l₁ ++ WPhase.fetched it node :: l₂ →
      (∀ r ∈ pending, r ∈ node.related_ids) →
      Step cfg s { s with
        discovered := (it.vid, recordedNode node it) :: s.discovered,
        workers := l₁ ++ WPhase.enqueuing (recordedNode node it) pending :: l₂ }
  | pushRelated (s : CrawlState) (l₁ l₂ : List WPhase) (node : VideoNode) (r : String)
      (pending : List String) :
      s.workers = l₁ ++ WPhase.enqueuing node (r :: pending) :: l₂ →
      r ∉ s.visited →
      Step cfg s { s with
        frontier := s.frontier ++ [⟨r, node.depth + 1, some node.video_id⟩],
        workers := l₁ ++ WPhase.enqueuing node pending :: l₂ }
  | skipRelated (s : CrawlState) (l₁ l₂ : List WPhase) (node : VideoNode) (r : String)
      (pending : List String) :
      s.workers = l₁ ++ WPhase.enqueuing node (r :: pending) :: l₂ →
      r ∈ s.visited →
      Step cfg s { s with workers := l₁ ++ WPhase.enqueuing node pending :: l₂ }
  | enqueueDone (s : CrawlState) (l₁ l₂ : List WPhase) (node : VideoNode) :
      s.workers = l₁ ++ WPhase.enqueuing node [] :: l₂ →
      Step cfg s { s with workers := l₁ ++ WPhase.ready :: l₂ }

/-- The crawl's starting state: the frontier holds the seed items
(`add_seed` pushes `(video_id, 0, None)`, crawler.py:375), nothing
visited or discovered, all workers at the top of their loop. -/
def initState (seeds : List WorkItem) (w : Nat) : CrawlState :=
  { frontier := seeds, visited := [], discovered := [],
    workers := List.replicate w WPhase.ready }

/-- Reachability in zero or more atomic steps. -/
inductive Reaches (cfg : CrawlConfig) : CrawlState → CrawlState → Prop where
  | refl (s : CrawlState) : Reaches cfg s s
  | tail (s t u : CrawlState) : Reaches cfg s t → Step cfg t u → Reaches cfg s u

/-! ## Helper lemmas about the per-worker list updates -/

lemma forall_mem_middle {α : Type} {P : α → Prop} {l₁ l₂ : List α} {p : α}
    (h : ∀ x ∈ l₁ ++ p :: l₂, P x) : P p :=
  h p (by simp)

lemma forall_mem_update {α : Type} {P : α → Prop} {l₁ l₂ : List α} {p : α} {q : α}
    (h : ∀ x ∈ l₁ ++ p :: l₂, P x) (hq : P q) : ∀ x ∈ l₁ ++ q :: l₂, P x := by
  intro x hx
  rcases List.mem_append.1 hx with h1 | h2
  · exact h x (List.mem_append.2 (Or.inl h1))
  · rcases List.mem_cons.1 h2 with rfl | h3
    · exact hq
    · exact h x (List.mem_append.2 (Or.inr (List.mem_cons.2 (Or.inr h3))))

/-! ## C2: the depth bound -/

/-- Loop-local items held past the claim check satisfy the depth bound. -/
def phaseDepthOk (cfg : CrawlConfig) : WPhase → Prop
  | .claimed it => it.depth ≤ cfg.max_depth
  | .fetched it _ => it.depth ≤ cfg.max_depth
  | _ => True

def DepthInv (cfg : CrawlConfig) (s : CrawlState) : Prop :=
  (∀ kv ∈ s.discovered, kv.2.depth ≤ cfg.max_depth) ∧
  (∀ p ∈ s.workers, phaseDepthOk cfg p)

lemma depthInv_step {cfg : CrawlConfig} {s s' : CrawlState}
    (hstep : Step cfg s s') (hinv : DepthInv cfg s) : DepthInv cfg s' := by
  obtain ⟨hd, hw⟩ := hinv
  cases hstep with
  | checkPass l₁ l₂ hwk hlt =>
    exact ⟨hd, by rw [hwk] at hw; exact forall_mem_update hw trivial⟩
  | checkStop l₁ l₂ hwk hge =>
    exact ⟨hd, by rw [hwk] at hw; exact forall_mem_update hw trivial⟩
  | stopSignal l₁ l₂ hwk =>
    exact ⟨hd, by rw [hwk] at hw; exact forall_mem_update hw trivial⟩
  | pop l₁ l₂ it rest hwk hfr =>
    exact ⟨hd, by rw [hwk] at hw; exact forall_mem_update hw trivial⟩
  | popEmpty l₁ l₂ hwk hfr =>
    exact ⟨hd, by rw [hwk] at hw; exact forall_mem_update hw trivial⟩
  | skipVisited l₁ l₂ it hwk hv =>
    exact ⟨hd, by rw [hwk] at hw; exact forall_mem_update hw trivial⟩
  | skipDeep l₁ l₂ it hwk hv hdeep =>
    exact ⟨hd, by rw [hwk] at hw; exact forall_mem_update hw trivial⟩
  | claim l₁ l₂ it hwk hv hdepth =>
    exact ⟨hd, by rw [hwk] at hw; exact forall_mem_update hw hdepth⟩
  | fetchOk l₁ l₂ it node hwk hvid =>
    refine ⟨hd, ?_⟩
    rw [hwk] at hw
    have hmid : phaseDepthOk cfg (WPhase.claimed it) := forall_mem_middle hw
    have hq : phaseDepthOk cfg (WPhase.fetched it node) := hmid
    exact forall_mem_update hw hq
  | fetchFail l₁ l₂ it hwk =>
    exact ⟨hd, by rw [hwk] at hw; exact forall_mem_update hw trivial⟩
  | record l₁ l₂ it node pending hwk hpend =>
    rw [hwk] at hw
    refine ⟨?_, forall_mem_update hw trivial⟩
    intro kv hkv
    have hmid : phaseDepthOk cfg (WPhase.fetched it node) := forall_mem_middle hw
    rcases List.mem_cons.1 hkv with rfl | hold
    · exact hmid
    · exact hd kv hold
  | pushRelated l₁ l₂ node r pending hwk hr =>
    exact ⟨hd, by rw [hwk] at hw; exact forall_mem_update hw trivial⟩
  | skipRelated l₁ l₂ node r pending hwk hr =>
    exact ⟨hd, by rw [hwk] at hw; exact forall_mem_update hw trivial⟩
  | enqueueDone l₁ l₂ node hwk =>
    exact ⟨hd, by rw [hwk] at hw; exact forall_mem_update hw trivial⟩

lemma depthInv_reaches {cfg : CrawlConfig} {seeds : List WorkItem} {w : Nat}
    {s : CrawlState} (hr : Reaches cfg (initState seeds w) s) : DepthInv cfg s := by
  induction hr with
  | refl =>
    refine ⟨by simp [initState], ?_⟩
    intro p hp
    rw [List.eq_of_mem_replicate hp]
    trivial
  | tail t u hst htu ih => exact depthInv_step htu ih

/-- The only step that extends `visited` is the claim of a popped item
that passed both guards — in particular its depth is within `max_depth`
(crawler.py:460-466: a popped item that is too deep is dropped before
`visited.add`). -/
lemma visited_growth {cfg : CrawlConfig} {s s' : CrawlState} (hstep : Step cfg s s') :
    ∀ v, v ∈ s'.visited → v ∉ s.visited →
      ∃ l₁ l₂ it, s.workers = l₁ ++ WPhase.popped it :: l₂ ∧ it.vid = v ∧
        it.depth ≤ cfg.max_depth := by
  intro v hv hnv
  cases hstep
  case claim l₁ l₂ it hwk hvv hdepth =>
    rcases List.mem_cons.1 hv with rfl | hold
    · exact ⟨l₁, l₂, it, hwk, rfl, hdepth⟩
    · exact absurd hold hnv
  all_goals exact absurd hv hnv

/-- C2: at every observable moment of a crawl every discovered vertex has
depth at most `max_depth`; and any step from a reachable state that adds
an id to `visited` is the claim of a popped item whose depth is at most
`max_depth` — equivalently, a worker that pops an item with depth above
`max_depth` discards it without adding it to `visited` (and hence never
to `discovered`, by the first part). -/
theorem claim_C2_depth_invariant (cfg : CrawlConfig) (seeds : List WorkItem) (w : Nat)
    (s : CrawlState) (hr : Reaches cfg (initState seeds w) s) :
    (∀ kv ∈ s.discovered, kv.2.depth ≤ cfg.max_depth) ∧
    (∀ s' : CrawlState, Step cfg s s' → ∀ v, v ∈ s'.visited → v ∉ s.visited →
      ∃ l₁ l₂ it, s.workers = l₁ ++ WPhase.popped it :: l₂ ∧ it.vid = v ∧
        it.depth ≤ cfg.max_depth) :=
  ⟨(depthInv_reaches hr).1, fun _ hstep => visited_growth hstep⟩

/-! ## A concrete single-worker crawl used by witnesses

One worker, seed `a` at depth 0, `a`'s expansion relating `b`; the worker
expands `a`, pushes `b`, and pops `b`; later claims and expands it. -/

def exCfg : CrawlConfig := ⟨5, 2⟩

def itA : WorkItem := ⟨"a", 0, none⟩

def itB : WorkItem := ⟨"b", 1, some "a"⟩

def nodeA : VideoNode := { video_id := "a", url := "ua", related_ids := ["b"] }

def nodeB : VideoNode := { video_id := "b", url := "ub" }

def recA : VideoNode := recordedNode nodeA itA

def recB : VideoNode := recordedNode nodeB itB

def exSeeds : List WorkItem := [itA]

def exS1 : CrawlState :=
  { frontier := [itA], visited := [], discovered := [], workers := [WPhase.passedCheck] }

def exS2 : CrawlState :=
  { frontier := [], visited := [], discovered := [], workers := [WPhase.popped itA] }

def exS3 : CrawlState :=
  { frontier := [], visited := ["a"], discovered := [], workers := [WPhase.claimed itA] }

def exS4 : CrawlState :=
  { frontier := [], visited := ["a"], discovered := [], workers := [WPhase.fetched itA nodeA] }

def exS5 : CrawlState :=
  { frontier := [], visited := ["a"], discovered := [("a", recA)],
    workers := [WPhase.enqueuing recA ["b"]] }

def exS6 : CrawlState :=
  { frontier := [itB], visited := ["a"], discovered := [("a", recA)],
    workers := [WPhase.enqueuing recA []] }

def exS7 : CrawlState :=
  { frontier := [itB], visited := ["a"], discovered := [("a", recA)],
    workers := [WPhase.ready] }

def exS8 : CrawlState :=
  { frontier := [itB], visited := ["a"], discovered := [("a", recA)],
    workers := [WPhase.passedCheck] }

def exS9 : CrawlState :=
  { frontier := [], visited := ["a"], discovered := [("a", recA)],
    workers := [WPhase.popped itB] }

def exS10 : CrawlState :=
  { frontier := [], visited := ["b", "a"], discovered := [("a", recA)],
    workers := [WPhase.claimed itB] }

def exS11 : CrawlState :=
  { frontier := [], visited := ["b", "a"], discovered := [("a", recA)],
    workers := [WPhase.fetched itB nodeB] }

def exS12 : CrawlState :=
  { frontier := [], visited := ["b", "a"], discovered := [("b", recB), ("a", recA)],
    workers := [WPhase.enqueuing recB []] }

lemma ex_reaches9 : Reaches exCfg (initState exSeeds 1) exS9 := by
  have h0 : Reaches exCfg (initState exSeeds 1) (initState exSeeds 1) := Reaches.refl _
  have h1 : Reaches exCfg (initState exSeeds 1) exS1 :=
    Reaches.tail _ _ _ h0 (Step.checkPass _ [] [] rfl (by decide))
  have h2 : Reaches exCfg (initState exSeeds 1) exS2 :=
    Reaches.tail _ _ _ h1 (Step.pop _ [] [] itA [] rfl rfl)
  have h3 : Reaches exCfg (initState exSeeds 1) exS3 :=
    Reaches.tail _ _ _ h2 (Step.claim _ [] [] itA rfl (by decide) (by decide))
  have h4 : Reaches exCfg (initState exSeeds 1) exS4 :=
    Reaches.tail _ _ _ h3 (Step.fetchOk _ [] [] itA nodeA rfl rfl)
  have h5 : Reaches exCfg (initState exSeeds 1) exS5 :=
    Reaches.tail _ _ _ h4 (Step.record _ [] [] itA nodeA ["b"] rfl (by decide))
  have h6 : Reaches exCfg (initState exSeeds 1) exS6 :=
    Reaches.tail _ _ _ h5 (Step.pushRelated _ [] [] recA "b" [] rfl (by decide))
  have h7 : Reaches exCfg (initState exSeeds 1) exS7 :=
    Reaches.tail _ _ _ h6 (Step.enqueueDone _ [] [] recA rfl)
  have h8 : Reaches exCfg (initState exSeeds 1) exS8 :=
    Reaches.tail _ _ _ h7 (Step.checkPass _ [] [] rfl (by decide))
  exact Reaches.tail _ _ _ h8 (Step.pop _ [] [] itB [] rfl rfl)

lemma ex_reaches12 : Reaches exCfg (initState exSeeds 1) exS12 := by
  have h10 : Reaches exCfg (initState exSeeds 1) exS10 :=
    Reaches.tail _ _ _ ex_reaches9 (Step.claim _ [] [] itB rfl (by decide) (by decide))
  have h11 : Reaches exCfg (initState exSeeds 1) exS11 :=
    Reaches.tail _ _ _ h10 (Step.fetchOk _ [] [] itB nodeB rfl rfl)
  exact Reaches.tail _ _ _ h11 (Step.record _ [] [] itB nodeB [] rfl (by decide))

/-- C2 witness: the theorem at the concrete reachable state `exS9`: the
discovered vertex `a` obeys the bound, and the concrete claim step of
item `b` is identified as the only way that step extends `visited`. -/
theorem claim_C2_depth_invariant_witness :
    recA.depth ≤ exCfg.max_depth ∧
    (∃ l₁ l₂ it, exS9.workers = l₁ ++ WPhase.popped it :: l₂ ∧ it.vid = "b" ∧
      it.depth ≤ exCfg.max_depth) :=
  ⟨(claim_C2_depth_invariant exCfg exSeeds 1 exS9 ex_reaches9).1 ("a", recA) (by simp [exS9]),
   (claim_C2_depth_invariant exCfg exSeeds 1 exS9 ex_reaches9).2 exS10
     (Step.claim _ [] [] itB rfl (by decide) (by decide)) "b" (by simp [exS10])
     (by decide)⟩

/-! ## C1: the discovered cap

The limit check (crawler.py:445-447) and the insert into `discovered`
(crawler.py:479-482) are separate lock acquisitions: a worker that passed
the check holds no reservation while it fetches, so several workers can
pass the check together and each insert one vertex. A worker is "active"
between passing the check and recording. -/

def isActive : WPhase → Bool
  | WPhase.passedCheck => true
  | WPhase.popped _ => true
  | WPhase.claimed _ => true
  | WPhase.fetched _ _ => true
  | _ => false

def activeCount (l : List WPhase) : Nat := List.countP isActive l

lemma activeCount_split (l₁ l₂ : List WPhase) (p : WPhase) :
    activeCount (l₁ ++ p :: l₂) =
      activeCount l₁ + activeCount l₂ + (if isActive p then 1 else 0) := by
  by_cases hp : isActive p
  · simp [activeCount, List.countP_append, List.countP_cons, hp]
    omega
  · simp [activeCount, List.countP_append, List.countP_cons, hp]

/-- Each insert into `discovered` consumes one worker's passed check, and
a check passes only while `len(discovered) < max_videos`. -/
def CountInv (cfg : CrawlConfig) (s : CrawlState) : Prop :=
  s.discovered.length + activeCount s.workers + 1 ≤ cfg.max_videos + s.workers.length

lemma activeCount_le_length (l : List WPhase) : activeCount l ≤ l.length :=
  List.countP_le_length isActive

lemma countInv_step {cfg : CrawlConfig} {s s' : CrawlState}
    (hstep : Step cfg s s') (hinv : CountInv cfg s) : CountInv cfg s' := by
  have hb1 : ∀ l : List WPhase, activeCount l ≤ l.length := activeCount_le_length
  cases hstep with
  | checkPass l₁ l₂ hwk hlt =>
    have h1 := hb1 l₁
    have h2 := hb1 l₂
    rw [CountInv, hwk] at hinv
    rw [CountInv]
    simp [activeCount_split, isActive] at hinv ⊢
    omega
  | checkStop l₁ l₂ hwk hge =>
    rw [CountInv, hwk] at hinv
    rw [CountInv]
    simp [activeCount_split, isActive] at hinv ⊢
    omega
  | stopSignal l₁ l₂ hwk =>
    rw [CountInv, hwk] at hinv
    rw [CountInv]
    simp [activeCount_split, isActive] at hinv ⊢
    omega
  | pop l₁ l₂ it rest hwk hfr =>
    rw [CountInv, hwk] at hinv
    rw [CountInv]
    simp [activeCount_split, isActive] at hinv ⊢
    omega
  | popEmpty l₁ l₂ hwk hfr =>
    rw [CountInv, hwk] at hinv
    rw [CountInv]
    simp [activeCount_split, isActive] at hinv ⊢
    omega
  | skipVisited l₁ l₂ it hwk hv =>
    rw [CountInv, hwk] at hinv
    rw [CountInv]
    simp [activeCount_split, isActive] at hinv ⊢
    omega
  | skipDeep l₁ l₂ it hwk hv hdeep =>
    rw [CountInv, hwk] at hinv
    rw [CountInv]
    simp [activeCount_split, isActive] at hinv ⊢
    omega
  | claim l₁ l₂ it hwk hv hdepth =>
    rw [CountInv, hwk] at hinv
    rw [CountInv]
    simp [activeCount_split, isActive] at hinv ⊢
    omega
  | fetchOk l₁ l₂ it node hwk hvid =>
    rw [CountInv, hwk] at hinv
    rw [CountInv]
    simp [activeCount_split, isActive] at hinv ⊢
    omega
  | fetchFail l₁ l₂ it hwk =>
    rw [CountInv, hwk] at hinv
    rw [CountInv]
    simp [activeCount_split, isActive] at hinv ⊢
    omega
  | record l₁ l₂ it node pending hwk hpend =>
    rw [CountInv, hwk] at hinv
    rw [CountInv]
    simp [activeCount_split, isActive] at hinv ⊢
    omega
  | pushRelated l₁ l₂ node r pending hwk hr =>
    rw [CountInv, hwk] at hinv
    rw [CountInv]
    simp [activeCount_split, isActive] at hinv ⊢
    omega
  | skipRelated l₁ l₂ node r pending hwk hr =>
    rw [CountInv, hwk] at hinv
    rw [CountInv]
    simp [activeCount_split, isActive] at hinv ⊢
    omega
  | enqueueDone l₁ l₂ node hwk =>
    rw [CountInv, hwk] at hinv
    rw [CountInv]
    simp [activeCount_split, isActive] at hinv ⊢
    omega

lemma countInv_init (cfg : CrawlConfig) (seeds : List WorkItem) (w : Nat) (hw : 1 ≤ w) :
    CountInv cfg (initState seeds w) := by
  have hzero : activeCount (List.replicate w WPhase.ready) = 0 := by
    apply List.countP_eq_zero.mpr
    intro a ha
    rw [List.eq_of_mem_replicate ha]
    simp [isActive]
  rw [CountInv]
  simp [initState, hzero]
  omega

lemma workers_length_step {cfg : CrawlConfig} {s s' : CrawlState}
    (hstep : Step cfg s s') : s'.workers.length = s.workers.length := by
  cases hstep <;> simp_all

lemma workers_length_reaches {cfg : CrawlConfig} {seeds : List WorkItem} {w : Nat}
    {s : CrawlState} (hr : Reaches cfg (initState seeds w) s) : s.workers.length = w := by
  induction hr with
  | refl => simp [initState]
  | tail t u hst htu ih => rw [workers_length_step htu, ih]

lemma countInv_reaches {cfg : CrawlConfig} {seeds : List WorkItem} {w : Nat}
    {s : CrawlState} (hw : 1 ≤ w) (hr : Reaches cfg (initState seeds w) s) :
    CountInv cfg s := by
  induction hr with
  | refl => exact countInv_init cfg seeds w hw
  | tail t u hst htu ih => exact countInv_step htu ih

/-- C1 counterexample: with two workers and `max_videos = 1`, both
workers pass the limit check while `discovered` is still empty, then each
records a vertex: a reachable state has `len(discovered) = 2 >
max_videos`. The limit check (crawler.py:445-447) and the insert
(crawler.py:479-482) are separate critical sections. -/
def c1Cfg : CrawlConfig := ⟨1, 0⟩

def c1ItA : WorkItem := ⟨"a", 0, none⟩

def c1ItB : WorkItem := ⟨"b", 0, none⟩

def c1NodeA : VideoNode := { video_id := "a", url := "ua" }

def c1NodeB : VideoNode := { video_id := "b", url := "ub" }

def c1Seeds : List WorkItem := [c1ItA, c1ItB]

def c1Final : CrawlState :=
  { frontier := [], visited := ["b", "a"],
    discovered := [("b", recordedNode c1NodeB c1ItB), ("a", recordedNode c1NodeA c1ItA)],
    workers := [WPhase.enqueuing (recordedNode c1NodeA c1ItA) [],
                WPhase.enqueuing (recordedNode c1NodeB c1ItB) []] }

theorem claim_C1_cex :
    Reaches c1Cfg (initState c1Seeds 2) c1Final ∧
    c1Cfg.max_videos < c1Final.discovered.length := by
  refine ⟨?_, by decide⟩
  have h0 : Reaches c1Cfg (initState c1Seeds 2) (initState c1Seeds 2) := Reaches.refl _
  have h1 : Reaches c1Cfg (initState c1Seeds 2)
      { frontier := [c1ItA, c1ItB], visited := [], discovered := [],
        workers := [WPhase.passedCheck, WPhase.ready] } :=
    Reaches.tail _ _ _ h0 (Step.checkPass _ [] [WPhase.ready] rfl (by decide))
  have h2 : Reaches c1Cfg (initState c1Seeds 2)
      { frontier := [c1ItA, c1ItB], visited := [], discovered := [],
        workers := [WPhase.passedCheck, WPhase.passedCheck] } :=
    Reaches.tail _ _ _ h1 (Step.checkPass _ [WPhase.passedCheck] [] rfl (by decide))
  have h3 : Reaches c1Cfg (initState c1Seeds 2)
      { frontier := [c1ItB], visited := [], discovered := [],
        workers := [WPhase.popped c1ItA, WPhase.passedCheck] } :=
    Reaches.tail _ _ _ h2 (Step.pop _ [] [WPhase.passedCheck] c1ItA [c1ItB] rfl rfl)
  have h4 : Reaches c1Cfg (initState c1Seeds 2)
      { frontier := [], visited := [], discovered := [],
        workers := [WPhase.popped c1ItA, WPhase.popped c1ItB] } :=
    Reaches.tail _ _ _ h3 (Step.pop _ [WPhase.popped c1ItA] [] c1ItB [] rfl rfl)
  have h5 : Reaches c1Cfg (initState c1Seeds 2)
      { frontier := [], visited := ["a"], discovered := [],
        workers := [WPhase.claimed c1ItA, WPhase.popped c1ItB] } :=
    Reaches.tail _ _ _ h4
      (Step.claim _ [] [WPhase.popped c1ItB] c1ItA rfl (by decide) (by decide))
  have h6 : Reaches c1Cfg (initState c1Seeds 2)
      { frontier := [], visited := ["b", "a"], discovered := [],
        workers := [WPhase.claimed c1ItA, WPhase.claimed c1ItB] } :=
    Reaches.tail _ _ _ h5
      (Step.claim _ [WPhase.claimed c1ItA] [] c1ItB rfl (by decide) (by decide))
  have h7 : Reaches c1Cfg (initState c1Seeds 2)
      { frontier := [], visited := ["b", "a"], discovered := [],
        workers := [WPhase.fetched c1ItA c1NodeA, WPhase.claimed c1ItB] } :=
    Reaches.tail _ _ _ h6
      (Step.fetchOk _ [] [WPhase.claimed c1ItB] c1ItA c1NodeA rfl rfl)
  have h8 : Reaches c1Cfg (initState c1Seeds 2)
      { frontier := [], visited := ["b", "a"], discovered := [],
        workers := [WPhase.fetched c1ItA c1NodeA, WPhase.fetched c1ItB c1NodeB] } :=
    Reaches.tail _ _ _ h7
      (Step.fetchOk _ [WPhase.fetched c1ItA c1NodeA] [] c1ItB c1NodeB rfl rfl)
  have h9 : Reaches c1Cfg (initState c1Seeds 2)
      { frontier := [], visited := ["b", "a"],
        discovered := [("a", recordedNode c1NodeA c1ItA)],
        workers := [WPhase.enqueuing (recordedNode c1NodeA c1ItA) [],
                    WPhase.fetched c1ItB c1NodeB] } :=
    Reaches.tail _ _ _ h8
      (Step.record _ [] [WPhase.fetched c1ItB c1NodeB] c1ItA c1NodeA [] rfl (by decide))
  exact Reaches.tail _ _ _ h9
    (Step.record _ [WPhase.enqueuing (recordedNode c1NodeA c1ItA) []] [] c1ItB c1NodeB []
      rfl (by decide))

/-- C1 (amended): starting from a fresh crawl with `num_workers ≥ 1`
workers, every reachable state satisfies `len(discovered) ≤ max_videos +
num_workers - 1` (stated additively to avoid truncated subtraction).
For a single worker this is exactly the claimed `len(discovered) ≤
max_videos`; with more workers the cap can be overshot by at most
`num_workers - 1` (the counterexample shows the overshoot is real). -/
theorem claim_C1_discovered_cap (cfg : CrawlConfig) (seeds : List WorkItem) (w : Nat)
    (s : CrawlState) (hw : 1 ≤ w) (hr : Reaches cfg (initState seeds w) s) :
    s.discovered.length + 1 ≤ cfg.max_videos + w := by
  have hc := countInv_reaches hw hr
  have hl := workers_length_reaches hr
  rw [CountInv, hl] at hc
  omega

/-- C1 witness: the amended bound at the concrete single-worker crawl. -/
theorem claim_C1_discovered_cap_witness :
    exS12.discovered.length + 1 ≤ exCfg.max_videos + 1 :=
  claim_C1_discovered_cap exCfg exSeeds 1 exS12 (by decide) ex_reaches12

/-! ## C4: what the scheduler pushes

`_add_related_to_frontier` (crawler.py:519-536) pushes
`(related_id, current_depth + 1, node.video_id)` for each selected
related id not yet visited — with no depth test at all; the only depth
test in the code is at dequeue (crawler.py:464). -/

/-- A trace of the crawl at `max_depth = 0`: the expansion of the seed
pushes `b` at depth 1 onto the frontier (same states as the `exS` trace,
against the stricter config). -/
def c4Cfg : CrawlConfig := ⟨5, 0⟩

lemma c4_reaches6 : Reaches c4Cfg (initState exSeeds 1) exS6 := by
  have h0 : Reaches c4Cfg (initState exSeeds 1) (initState exSeeds 1) := Reaches.refl _
  have h1 : Reaches c4Cfg (initState exSeeds 1) exS1 :=
    Reaches.tail _ _ _ h0 (Step.checkPass _ [] [] rfl (by decide))
  have h2 : Reaches c4Cfg (initState exSeeds 1) exS2 :=
    Reaches.tail _ _ _ h1 (Step.pop _ [] [] itA [] rfl rfl)
  have h3 : Reaches c4Cfg (initState exSeeds 1) exS3 :=
    Reaches.tail _ _ _ h2 (Step.claim _ [] [] itA rfl (by decide) (by decide))
  have h4 : Reaches c4Cfg (initState exSeeds 1) exS4 :=
    Reaches.tail _ _ _ h3 (Step.fetchOk _ [] [] itA nodeA rfl rfl)
  have h5 : Reaches c4Cfg (initState exSeeds 1) exS5 :=
    Reaches.tail _ _ _ h4 (Step.record _ [] [] itA nodeA ["b"] rfl (by decide))
  exact Reaches.tail _ _ _ h5 (Step.pushRelated _ [] [] recA "b" [] rfl (by decide))

/-- C4 counterexample: with `max_depth = 0` the crawl reaches a state
whose frontier holds the item `(b, 1, a)` of depth `1 > max_depth`: the
item whose depth exceeds `max_depth` was pushed, not dropped at enqueue
time. -/
theorem claim_C4_cex :
    Reaches c4Cfg (initState exSeeds 1) exS6 ∧
    itB ∈ exS6.frontier ∧ c4Cfg.max_depth < itB.depth := by
  exact ⟨c4_reaches6, by simp [exS6], by decide⟩

/-- C4 (amended): every item the scheduler pushes carries
`depth = v.depth + 1` and `parent_id = v.id` for the just-expanded vertex
`v`, and is pushed only when its id is unvisited — but with no depth test
at enqueue time. The `max_depth` filter acts at dequeue instead: a step
that adds an id to `visited` claims an item of depth at most `max_depth`
(a popped item that is too deep is discarded unclaimed). The first
conjunct characterizes every possible frontier change: unchanged, a pop
of the head, or exactly such a push. -/
theorem claim_C4_enqueue_shape (cfg : CrawlConfig) (s s' : CrawlState)
    (hstep : Step cfg s s') :
    (s'.frontier = s.frontier ∨ (∃ it, s.frontier = it :: s'.frontier) ∨
      ∃ l₁ l₂ node r pending,
        s.workers = l₁ ++ WPhase.enqueuing node (r :: pending) :: l₂ ∧ r ∉ s.visited ∧
        s'.frontier = s.frontier ++ [⟨r, node.depth + 1, some node.video_id⟩]) ∧
    (∀ v, v ∈ s'.visited → v ∉ s.visited →
      ∃ l₁ l₂ it, s.workers = l₁ ++ WPhase.popped it :: l₂ ∧ it.vid = v ∧
        it.depth ≤ cfg.max_depth) := by
  refine ⟨?_, visited_growth hstep⟩
  cases hstep
  case pop l₁ l₂ it rest hwk hfr => exact Or.inr (Or.inl ⟨it, hfr⟩)
  case pushRelated l₁ l₂ node r pending hwk hr =>
    exact Or.inr (Or.inr ⟨l₁, l₂, node, r, pending, hwk, hr, rfl⟩)
  all_goals exact Or.inl rfl

/-- C4 witness: the push step from `exS5` to `exS6` matches the push
characterization. -/
theorem claim_C4_enqueue_shape_witness :
    exS6.frontier = exS5.frontier ∨ (∃ it, exS5.frontier = it :: exS6.frontier) ∨
      ∃ l₁ l₂ node r pending,
        exS5.workers = l₁ ++ WPhase.enqueuing node (r :: pending) :: l₂ ∧ r ∉ exS5.visited ∧
        exS6.frontier = exS5.frontier ++ [⟨r, node.depth + 1, some node.video_id⟩] :=
  (claim_C4_enqueue_shape c4Cfg exS5 exS6
    (Step.pushRelated _ [] [] recA "b" [] rfl (by decide))).1

/-! ## C9: the parent/depth invariant

`_worker` records a node only after claiming its id; children enter the
frontier only from `_add_related_to_frontier(node, depth)` after `node`
was recorded, carrying `depth + 1` and `parent_id = node.video_id`. The
depth a vertex is recorded with (crawler.py:476) is the depth of the work
item that claimed it, so `discovered[p].depth` is exactly "the depth
recorded for `p` when `p` was claimed". -/

def lookupD : List (String × VideoNode) → String → Option VideoNode
  | [], _ => none
  | (k, v) :: rest, key => if k = key then some v else lookupD rest key

def keysD (d : List (String × VideoNode)) : List String := d.map Prod.fst

lemma lookupD_mem_keys {d : List (String × VideoNode)} {p : String} {pv : VideoNode}
    (h : lookupD d p = some pv) : p ∈ keysD d := by
  induction d with
  | nil => simp [lookupD] at h
  | cons kv rest ih =>
    obtain ⟨k, v⟩ := kv
    by_cases hk : k = p
    · simp [keysD, hk]
    · rw [lookupD, if_neg hk] at h
      simp [keysD]
      right
      simpa [keysD] using ih h

lemma lookupD_cons_of_ne {d : List (String × VideoNode)} {k p : String} {v : VideoNode}
    (h : k ≠ p) : lookupD ((k, v) :: d) p = lookupD d p := by
  rw [lookupD, if_neg h]

lemma lookupD_cons_self {d : List (String × VideoNode)} {k : String} {v : VideoNode} :
    lookupD ((k, v) :: d) k = some v := by
  rw [lookupD, if_pos rfl]


/-- The parent link of a vertex or work item of a given depth, relative
to a visited set and a discovered table: the parent is visited, recorded,
and the depth is the parent's recorded depth plus one. Seeds (no parent)
are unconstrained. -/
def ParentOk (vis : List String) (disc : List (String × VideoNode))
    (depth : Nat) (parent : Option String) : Prop :=
  match parent with
  | none => True
  | some p => p ∈ vis ∧ ∃ pv, lookupD disc p = some pv ∧ depth = pv.depth + 1

def itemOk (vis : List String) (disc : List (String × VideoNode)) (it : WorkItem) : Prop :=
  ParentOk vis disc it.depth it.parent

/-- Per-phase obligations: in-flight items keep their parent link; an
enqueuing worker's node is visited and recorded under its own id. -/
def phaseOk9 (vis : List String) (disc : List (String × VideoNode)) : WPhase → Prop
  | .popped it => itemOk vis disc it
  | .claimed it => itemOk vis disc it
  | .fetched it node => itemOk vis disc it ∧ node.video_id = it.vid
  | .enqueuing node _ => node.video_id ∈ vis ∧ lookupD disc node.video_id = some node
  | _ => True

/-- The id a worker holds exclusively between its claim and its record. -/
def ownedV : WPhase → List String
  | .claimed it => [it.vid]
  | .fetched it _ => [it.vid]
  | _ => []

structure Inv9 (s : CrawlState) : Prop where
  disc_vid : ∀ kv ∈ s.discovered, (kv.2).video_id = kv.1
  disc_vis : ∀ kv ∈ s.discovered, kv.1 ∈ s.visited
  disc_par : ∀ kv ∈ s.discovered, ParentOk s.visited s.discovered (kv.2).depth (kv.2).parent_id
  fr_ok : ∀ it ∈ s.frontier, itemOk s.visited s.discovered it
  wk_ok : ∀ p ∈ s.workers, phaseOk9 s.visited s.discovered p
  keys_nd : (keysD s.discovered).Nodup
  own_vis : ∀ v ∈ s.workers.flatMap ownedV, v ∈ s.visited
  own_keys : ∀ v ∈ s.workers.flatMap ownedV, v ∉ keysD s.discovered
  own_nd : (s.workers.flatMap ownedV).Nodup

lemma flatMap_split (l₁ l₂ : List WPhase) (p : WPhase) :
    (l₁ ++ p :: l₂).flatMap ownedV =
      l₁.flatMap ownedV ++ (ownedV p ++ l₂.flatMap ownedV) := by
  simp

lemma parentOk_mono {vis vis' : List String} {disc disc' : List (String × VideoNode)}
    (hvis : ∀ v ∈ vis, v ∈ vis')
    (hlk : ∀ p pv, lookupD disc p = some pv → lookupD disc' p = some pv)
    {depth : Nat} {parent : Option String} (h : ParentOk vis disc depth parent) :
    ParentOk vis' disc' depth parent := by
  cases parent with
  | none => trivial
  | some p =>
    obtain ⟨hp, pv, hpv, hd⟩ := h
    exact ⟨hvis p hp, pv, hlk p pv hpv, hd⟩

lemma phaseOk9_mono {vis vis' : List String} {disc disc' : List (String × VideoNode)}
    (hvis : ∀ v ∈ vis, v ∈ vis')
    (hlk : ∀ p pv, lookupD disc p = some pv → lookupD disc' p = some pv)
    {ph : WPhase} (h : phaseOk9 vis disc ph) : phaseOk9 vis' disc' ph := by
  cases ph with
  | popped it => exact parentOk_mono hvis hlk h
  | claimed it => exact parentOk_mono hvis hlk h
  | fetched it node => exact ⟨parentOk_mono hvis hlk h.1, h.2⟩
  | enqueuing node pending => exact ⟨hvis _ h.1, hlk _ _ h.2⟩
  | ready => trivial
  | passedCheck => trivial
  | stopped => trivial

/-- Steps that change only the stepping worker's phase — and do not grow
the set of ids that worker owns — preserve `Inv9`. -/
lemma inv9_worker_only {s : CrawlState} {l₁ l₂ : List WPhase} {p q : WPhase}
    (hinv : Inv9 s) (hwk : s.workers = l₁ ++ p :: l₂)
    (hq : phaseOk9 s.visited s.discovered q) (hsub : List.Sublist (ownedV q) (ownedV p)) :
    Inv9 { s with workers := l₁ ++ q :: l₂ } := by
  obtain ⟨d1, d2, d3, d4, d5, d6, d7, d8, d9⟩ := hinv
  rw [hwk] at d5 d7 d8 d9
  have hsub2 : List.Sublist ((l₁ ++ q :: l₂).flatMap ownedV)
      ((l₁ ++ p :: l₂).flatMap ownedV) := by
    rw [flatMap_split, flatMap_split]
    exact ((hsub.append_right _).append_left _)
  exact {
    disc_vid := d1, disc_vis := d2, disc_par := d3, fr_ok := d4,
    wk_ok := forall_mem_update d5 hq,
    keys_nd := d6,
    own_vis := fun v hv => d7 v (hsub2.subset hv),
    own_keys := fun v hv => d8 v (hsub2.subset hv),
    own_nd := d9.sublist hsub2 }

lemma keysD_subset_visited {s : CrawlState}
    (d2 : ∀ kv ∈ s.discovered, kv.1 ∈ s.visited) :
    ∀ k ∈ keysD s.discovered, k ∈ s.visited := by
  intro k hk
  obtain ⟨kv, hmem, rfl⟩ := List.mem_map.1 hk
  exact d2 kv hmem

lemma inv9_step {cfg : CrawlConfig} {s s' : CrawlState}
    (hstep : Step cfg s s') (hinv : Inv9 s) : Inv9 s' := by
  cases hstep with
  | checkPass l₁ l₂ hwk hlt =>
    exact inv9_worker_only hinv hwk trivial (List.Sublist.refl _)
  | checkStop l₁ l₂ hwk hge =>
    exact inv9_worker_only hinv hwk trivial (List.Sublist.refl _)
  | stopSignal l₁ l₂ hwk =>
    exact inv9_worker_only hinv hwk trivial (List.Sublist.refl _)
  | popEmpty l₁ l₂ hwk hfr =>
    exact inv9_worker_only hinv hwk trivial (List.Sublist.refl _)
  | skipVisited l₁ l₂ it hwk hv =>
    exact inv9_worker_only hinv hwk trivial (List.nil_sublist _)
  | skipDeep l₁ l₂ it hwk hv hdeep =>
    exact inv9_worker_only hinv hwk trivial (List.nil_sublist _)
  | fetchFail l₁ l₂ it hwk =>
    exact inv9_worker_only hinv hwk trivial (List.nil_sublist _)
  | enqueueDone l₁ l₂ node hwk =>
    exact inv9_worker_only hinv hwk trivial (List.nil_sublist _)
  | fetchOk l₁ l₂ it node hwk hvid =>
    have hwall := hinv.wk_ok
    rw [hwk] at hwall
    have hmid : phaseOk9 s.visited s.discovered (WPhase.claimed it) := forall_mem_middle hwall
    have hq : phaseOk9 s.visited s.discovered (WPhase.fetched it node) := ⟨hmid, hvid⟩
    exact inv9_worker_only hinv hwk hq (List.Sublist.refl _)
  | skipRelated l₁ l₂ node r pending hwk hr =>
    have hwall := hinv.wk_ok
    rw [hwk] at hwall
    have hmid : phaseOk9 s.visited s.discovered (WPhase.enqueuing node (r :: pending)) :=
      forall_mem_middle hwall
    have hq : phaseOk9 s.visited s.discovered (WPhase.enqueuing node pending) := hmid
    exact inv9_worker_only hinv hwk hq (List.Sublist.refl _)
  | pop l₁ l₂ it rest hwk hfr =>
    obtain ⟨d1, d2, d3, d4, d5, d6, d7, d8, d9⟩ := hinv
    rw [hwk] at d5 d7 d8 d9
    rw [hfr] at d4
    have hhd : itemOk s.visited s.discovered it := d4 it (List.mem_cons_self it rest)
    have hq : phaseOk9 s.visited s.discovered (WPhase.popped it) := hhd
    exact {
      disc_vid := d1, disc_vis := d2, disc_par := d3,
      fr_ok := fun x hx => d4 x (List.mem_cons_of_mem _ hx),
      wk_ok := forall_mem_update d5 hq,
      keys_nd := d6,
      own_vis := by
        intro v hv'
        apply d7
        rw [flatMap_split] at hv' ⊢
        simpa [ownedV] using hv'
      own_keys := by
        intro v hv'
        apply d8
        rw [flatMap_split] at hv' ⊢
        simpa [ownedV] using hv'
      own_nd := by
        rw [flatMap_split] at d9 ⊢
        simpa [ownedV] using d9 }
  | claim l₁ l₂ it hwk hv hdepth =>
    obtain ⟨d1, d2, d3, d4, d5, d6, d7, d8, d9⟩ := hinv
    rw [hwk] at d5 d7 d8 d9
    have hmid : phaseOk9 s.visited s.discovered (WPhase.popped it) := forall_mem_middle d5
    have hmid' : itemOk s.visited s.discovered it := hmid
    have d7' : ∀ v ∈ l₁.flatMap ownedV ++ l₂.flatMap ownedV, v ∈ s.visited := by
      intro v hv'
      apply d7
      rw [flatMap_split]
      simpa [ownedV] using hv'
    have d8' : ∀ v ∈ l₁.flatMap ownedV ++ l₂.flatMap ownedV, v ∉ keysD s.discovered := by
      intro v hv'
      apply d8
      rw [flatMap_split]
      simpa [ownedV] using hv'
    have d9' : (l₁.flatMap ownedV ++ l₂.flatMap ownedV).Nodup := by
      rw [flatMap_split] at d9
      simpa [ownedV] using d9
    have hvis2 : ∀ v ∈ s.visited, v ∈ it.vid :: s.visited :=
      fun v hvm => List.mem_cons_of_mem _ hvm
    have hlk2 : ∀ p pv, lookupD s.discovered p = some pv → lookupD s.discovered p = some pv :=
      fun _ _ h => h
    exact {
      disc_vid := d1,
      disc_vis := fun kv hkv => List.mem_cons_of_mem _ (d2 kv hkv),
      disc_par := fun kv hkv => parentOk_mono hvis2 hlk2 (d3 kv hkv),
      fr_ok := fun x hx => parentOk_mono hvis2 hlk2 (d4 x hx),
      wk_ok := by
        have d5' : ∀ x ∈ l₁ ++ WPhase.popped it :: l₂,
            phaseOk9 (it.vid :: s.visited) s.discovered x :=
          fun x hx => phaseOk9_mono hvis2 hlk2 (d5 x hx)
        have hq : phaseOk9 (it.vid :: s.visited) s.discovered (WPhase.claimed it) :=
          parentOk_mono hvis2 hlk2 hmid'
        exact forall_mem_update d5' hq
      keys_nd := d6,
      own_vis := by
        intro v hv'
        rw [flatMap_split] at hv'
        simp only [ownedV] at hv'
        rcases List.mem_append.1 hv' with h1 | h2
        · exact List.mem_cons_of_mem _ (d7' v (List.mem_append.2 (Or.inl h1)))
        · rcases List.mem_append.1 h2 with h2a | h2b
          · rw [List.mem_singleton.1 h2a]
            exact List.mem_cons_self _ _
          · exact List.mem_cons_of_mem _ (d7' v (List.mem_append.2 (Or.inr h2b)))
      own_keys := by
        intro v hv'
        rw [flatMap_split] at hv'
        simp only [ownedV] at hv'
        rcases List.mem_append.1 hv' with h1 | h2
        · exact d8' v (List.mem_append.2 (Or.inl h1))
        · rcases List.mem_append.1 h2 with h2a | h2b
          · rw [List.mem_singleton.1 h2a]
            intro hk
            exact hv (keysD_subset_visited d2 it.vid hk)
          · exact d8' v (List.mem_append.2 (Or.inr h2b))
      own_nd := by
        rw [flatMap_split]
        simp only [ownedV]
        have hnotin : it.vid ∉ l₁.flatMap ownedV ++ l₂.flatMap ownedV :=
          fun hin => hv (d7' it.vid hin)
        have hcons : (it.vid :: (l₁.flatMap ownedV ++ l₂.flatMap ownedV)).Nodup :=
          List.nodup_cons.mpr ⟨hnotin, d9'⟩
        rw [show l₁.flatMap ownedV ++ ([it.vid] ++ l₂.flatMap ownedV)
            = l₁.flatMap ownedV ++ it.vid :: l₂.flatMap ownedV from rfl]
        exact List.nodup_middle.mpr hcons }
  | record l₁ l₂ it node pending hwk hpend =>
    obtain ⟨d1, d2, d3, d4, d5, d6, d7, d8, d9⟩ := hinv
    rw [hwk] at d5 d7 d8 d9
    have hmid : phaseOk9 s.visited s.discovered (WPhase.fetched it node) := forall_mem_middle d5
    have hmid' : itemOk s.visited s.discovered it ∧ node.video_id = it.vid := hmid
    obtain ⟨hitem, hvid⟩ := hmid'
    have hvidmem : it.vid ∈ (l₁ ++ WPhase.fetched it node :: l₂).flatMap ownedV := by
      rw [flatMap_split]
      simp [ownedV]
    have hivis : it.vid ∈ s.visited := d7 _ hvidmem
    have hikeys : it.vid ∉ keysD s.discovered := d8 _ hvidmem
    have d9' : (l₁.flatMap ownedV ++ it.vid :: l₂.flatMap ownedV).Nodup := by
      rw [flatMap_split] at d9
      simpa [ownedV] using d9
    have hmidnd := List.nodup_middle.mp d9'
    have hnotin : it.vid ∉ l₁.flatMap ownedV ++ l₂.flatMap ownedV :=
      (List.nodup_cons.mp hmidnd).1
    have hrest : (l₁.flatMap ownedV ++ l₂.flatMap ownedV).Nodup :=
      (List.nodup_cons.mp hmidnd).2
    have d7' : ∀ v ∈ l₁.flatMap ownedV ++ l₂.flatMap ownedV, v ∈ s.visited := by
      intro v hv'
      apply d7
      rw [flatMap_split]
      simp only [ownedV]
      rcases List.mem_append.1 hv' with h1 | h2
      · exact List.mem_append.2 (Or.inl h1)
      · exact List.mem_append.2 (Or.inr (List.mem_append.2 (Or.inr h2)))
    have d8' : ∀ v ∈ l₁.flatMap ownedV ++ l₂.flatMap ownedV, v ∉ keysD s.discovered := by
      intro v hv'
      apply d8
      rw [flatMap_split]
      simp only [ownedV]
      rcases List.mem_append.1 hv' with h1 | h2
      · exact List.mem_append.2 (Or.inl h1)
      · exact List.mem_append.2 (Or.inr (List.mem_append.2 (Or.inr h2)))
    have hvis2 : ∀ v ∈ s.visited, v ∈ s.visited := fun _ h => h
    have hlk2 : ∀ p pv, lookupD s.discovered p = some pv →
        lookupD ((it.vid, recordedNode node it) :: s.discovered) p = some pv := by
      intro p pv h
      have hpk : p ∈ keysD s.discovered := lookupD_mem_keys h
      have hne : it.vid ≠ p := fun he => hikeys (he ▸ hpk)
      rw [lookupD_cons_of_ne hne]
      exact h
    exact {
      disc_vid := by
        intro kv hkv
        rcases List.mem_cons.1 hkv with rfl | hold
        · show node.video_id = it.vid
          exact hvid
        · exact d1 kv hold
      disc_vis := by
        intro kv hkv
        rcases List.mem_cons.1 hkv with rfl | hold
        · exact hivis
        · exact d2 kv hold
      disc_par := by
        intro kv hkv
        rcases List.mem_cons.1 hkv with rfl | hold
        · exact parentOk_mono hvis2 hlk2 hitem
        · exact parentOk_mono hvis2 hlk2 (d3 kv hold)
      fr_ok := fun x hx => parentOk_mono hvis2 hlk2 (d4 x hx),
      wk_ok := by
        have d5' : ∀ x ∈ l₁ ++ WPhase.fetched it node :: l₂,
            phaseOk9 s.visited ((it.vid, recordedNode node it) :: s.discovered) x :=
          fun x hx => phaseOk9_mono hvis2 hlk2 (d5 x hx)
        refine forall_mem_update d5' ?_
        refine ⟨?_, ?_⟩
        · show node.video_id ∈ s.visited
          rw [hvid]
          exact hivis
        · show lookupD ((it.vid, recordedNode node it) :: s.discovered)
            (recordedNode node it).video_id = some (recordedNode node it)
          show lookupD ((it.vid, recordedNode node it) :: s.discovered)
            node.video_id = some (recordedNode node it)
          rw [hvid]
          exact lookupD_cons_self
      keys_nd := by
        show (it.vid :: keysD s.discovered).Nodup
        exact List.nodup_cons.mpr ⟨hikeys, d6⟩
      own_vis := by
        intro v hv'
        rw [flatMap_split] at hv'
        simp only [ownedV] at hv'
        rw [List.nil_append] at hv'
        exact d7' v hv'
      own_keys := by
        intro v hv'
        rw [flatMap_split] at hv'
        simp only [ownedV] at hv'
        rw [List.nil_append] at hv'
        show v ∉ it.vid :: keysD s.discovered
        intro hc
        rcases List.mem_cons.1 hc with rfl | hck
        · exact hnotin hv'
        · exact d8' v hv' hck
      own_nd := by
        rw [flatMap_split]
        simp only [ownedV]
        rw [List.nil_append]
        exact hrest }
  | pushRelated l₁ l₂ node r pending hwk hr =>
    obtain ⟨d1, d2, d3, d4, d5, d6, d7, d8, d9⟩ := hinv
    rw [hwk] at d5 d7 d8 d9
    have hmid : phaseOk9 s.visited s.discovered (WPhase.enqueuing node (r :: pending)) :=
      forall_mem_middle d5
    have hmid' : node.video_id ∈ s.visited ∧
        lookupD s.discovered node.video_id = some node := hmid
    obtain ⟨hnv, hnlk⟩ := hmid'
    have hq : phaseOk9 s.visited s.discovered (WPhase.enqueuing node pending) := ⟨hnv, hnlk⟩
    exact {
      disc_vid := d1, disc_vis := d2, disc_par := d3,
      fr_ok := by
        intro x hx
        rcases List.mem_append.1 hx with hold | hnew
        · exact d4 x hold
        · rw [List.mem_singleton.1 hnew]
          exact ⟨hnv, node, hnlk, rfl⟩
      wk_ok := forall_mem_update d5 hq,
      keys_nd := d6,
      own_vis := by
        intro v hv'
        apply d7
        rw [flatMap_split] at hv' ⊢
        simpa [ownedV] using hv'
      own_keys := by
        intro v hv'
        apply d8
        rw [flatMap_split] at hv' ⊢
        simpa [ownedV] using hv'
      own_nd := by
        rw [flatMap_split] at d9 ⊢
        simpa [ownedV] using d9 }

lemma replicate_ready_owned (w : Nat) :
    (List.replicate w WPhase.ready).flatMap ownedV = [] := by
  induction w with
  | zero => rfl
  | succ n ih => simp [List.replicate_succ, ih, ownedV]

lemma inv9_init (seeds : List WorkItem) (w : Nat)
    (hseeds : ∀ it ∈ seeds, it.parent = none) : Inv9 (initState seeds w) := by
  refine {
    disc_vid := by simp [initState],
    disc_vis := by simp [initState],
    disc_par := by simp [initState],
    fr_ok := ?_,
    wk_ok := ?_,
    keys_nd := by simp [initState, keysD],
    own_vis := ?_,
    own_keys := ?_,
    own_nd := ?_ }
  · intro it hit
    show ParentOk [] [] it.depth it.parent
    rw [hseeds it hit]
    trivial
  · intro p hp
    rw [List.eq_of_mem_replicate hp]
    trivial
  · intro v hv
    rw [show (initState seeds w).workers = List.replicate w WPhase.ready from rfl,
      replicate_ready_owned] at hv
    exact absurd hv (List.not_mem_nil v)
  · intro v hv
    rw [show (initState seeds w).workers = List.replicate w WPhase.ready from rfl,
      replicate_ready_owned] at hv
    exact absurd hv (List.not_mem_nil v)
  · rw [show (initState seeds w).workers = List.replicate w WPhase.ready from rfl,
      replicate_ready_owned]
    exact List.nodup_nil

lemma inv9_reaches {cfg : CrawlConfig} {seeds : List WorkItem} {w : Nat} {s : CrawlState}
    (hseeds : ∀ it ∈ seeds, it.parent = none)
    (hr : Reaches cfg (initState seeds w) s) : Inv9 s := by
  induction hr with
  | refl => exact inv9_init seeds w hseeds
  | tail t u hst htu ih => exact inv9_step htu ih

/-- C9: in any crawl started from seeds (which carry no parent), every
non-seed vertex `v` in the discovered map (a vertex with a non-null
`parent_id`) has its parent in `visited`, the parent itself is recorded
in `discovered`, and `v.depth` is the parent's recorded depth plus one —
the parent's recorded depth being exactly the depth at which the parent
was claimed (crawler.py:476 copies the claimed item's depth into the
recorded node). -/
theorem claim_C9_parent_links (cfg : CrawlConfig) (seeds : List WorkItem) (w : Nat)
    (s : CrawlState) (hseeds : ∀ it ∈ seeds, it.parent = none)
    (hr : Reaches cfg (initState seeds w) s) :
    ∀ kv ∈ s.discovered, ∀ p, (kv.2).parent_id = some p →
      p ∈ s.visited ∧ ∃ pv, lookupD s.discovered p = some pv ∧
        (kv.2).depth = pv.depth + 1 := by
  intro kv hkv p hp
  have hinv := inv9_reaches hseeds hr
  have hpar := hinv.disc_par kv hkv
  rw [hp] at hpar
  exact hpar

/-- C9 witness: in the concrete crawl, vertex `b` was reached from `a`;
its parent `a` is visited and recorded at depth 0, and `b` is recorded at
depth 1. -/
theorem claim_C9_parent_links_witness :
    "a" ∈ exS12.visited ∧
    ∃ pv, lookupD exS12.discovered "a" = some pv ∧ recB.depth = pv.depth + 1 :=
  claim_C9_parent_links exCfg exSeeds 1 exS12 (by decide) ex_reaches12 ("b", recB)
    (by simp [exS12]) "a" rfl
